import Mathlib

/-!
Verification of the data-to-geometry pipeline of the cf4ocl event-plotting
scripts (src/scripts/ccl_plot_events.py and src/scripts/plot_events.py).

The scripts read a tab-separated profiling log with numpy.genfromtxt,
derive the sorted distinct queues and event names with numpy.unique,
assign each event name a colormap index with Python 2 integer division,
and emit one matplotlib rectangle per record plus axis bounds, queue
ticks and a legend.  Everything below is a shallow embedding of that
code: external library calls (numpy, matplotlib) are modelled by their
documented semantics, the script lines themselves are translated
directly.
-/

namespace CclPlotEvents

/-- Ordered duplicate-free insertion, the building block of the
numpy.unique model below: place a below the first larger element,
drop it if already present. -/
def insertUnique {α : Type} [LinearOrder α] (a : α) : List α → List α
  | [] => [a]
  | b :: l =>
    if a < b then a :: b :: l else if a = b then b :: l else b :: insertUnique a l

/-- Model of numpy.unique(...).tolist() (source line 94 and line 110):
numpy.unique returns the sorted distinct elements of the input array,
ascending in the natural order of the element type.  The lemmas
npUnique_sorted, mem_npUnique and npUnique_eq_of_sorted below show this
definition is the unique list with that contract, so it is a faithful
model of the library call. -/
def npUnique {α : Type} [LinearOrder α] (l : List α) : List α :=
  l.foldr insertUnique []

/-- Size of the lookup table of the matplotlib colormap obtained by
pylab.cm.get_cmap with name spectral (source line 114): cmap.N = 256,
the default LUT size. -/
def cmapN : ℕ := 256

/-- Model of calling a matplotlib colormap on an INTEGER argument x
(source lines 123 and 139): the integer is used directly as an index
into the N-entry lookup table; an index beyond N-1 selects the
out-of-range entry, modelled here as index cmapN.  The resulting color
is identified with the LUT index it selects (the spectral LUT entries
are pairwise distinct, so this identification is faithful up to the
injectivity of the palette, which theorems keep as an explicit
parameter where it matters). -/
def cmapIdx (x : ℕ) : ℕ :=
  if x < cmapN then x else cmapN

/-- Model of calling a matplotlib colormap on a FLOAT argument
t ∈ [0, 1] (matplotlib Colormap.__call__): the float is scaled by N,
a result equal to N is pulled back to N - 1, and the value is truncated
to an integer LUT index.  Only arguments in [0, 1] are modelled, which
is the range the specification uses. -/
def cmapFloatIdx (t : ℚ) : ℕ :=
  if t * (cmapN : ℚ) = (cmapN : ℚ) then cmapN - 1 else ⌊t * (cmapN : ℚ)⌋₊

/-- One parsed profiling record, a row of the structured array pdat
(source line 91): named fields queue, t_start, t_end, event.  Queue and
event identifiers are kept generic in a linearly ordered type, since
numpy.genfromtxt infers either a numeric or a byte-string column type;
timestamps are rationals (exact stand-ins for the parsed numbers). -/
structure Record (α β : Type) where
  queue : α
  t_start : ℚ
  t_end : ℚ
  event : β
deriving DecidableEq, Repr, Inhabited

/-- One matplotlib Rectangle as created at source line 141:
patches.Rectangle((x, y), width, 0.8, facecolor=color).  The facecolor
is recorded as the colormap LUT index selected for it. -/
structure ChartRect where
  x : ℚ
  y : ℚ
  width : ℚ
  height : ℚ
  facecolor : ℕ
deriving DecidableEq, Repr, Inhabited

/-- The chart model assembled by the script: axis bounds from source
line 105, y ticks from line 107, legend from lines 119-127 and 145
(label paired with the LUT index of its patch facecolor), and the
rectangle list from the loop at lines 130-142, in input order. -/
structure ChartModel (α β : Type) where
  xmin : ℚ
  xmax : ℚ
  ymin : ℚ
  ymax : ℚ
  yticks : List (ℕ × α)
  legend : List (β × ℕ)
  rects : List ChartRect
deriving DecidableEq, Repr, Inhabited

/-- Source line 115: uniq_colors = [x*cmap.N/num_uniq_evts for x in
range(num_uniq_evts)].  Python 2 division of nonnegative integers is
floor division, i.e. Nat division. -/
def uniq_colors (num_uniq_evts : ℕ) : List ℕ :=
  (List.range num_uniq_evts).map (fun x => x * cmapN / num_uniq_evts)

/-- Failures of the pipeline stages past parsing.
minEmptySequence models the Python ValueError raised by the builtin
min() on an empty sequence, which is what source line 105 raises when
the record array is empty.  emptyInputError is the error kind the
specification prescribes for a Domain Resolver guard on empty input; it
is declared here so that statements about the specification can be
made, and no code path below ever produces it. -/
inductive PipelineError where
  | minEmptySequence
  | emptyInputError
deriving DecidableEq, Repr

/-- The data-to-geometry pipeline of ccl_plot_events.py, source lines
91-145, as a function of the parsed record list pdat.  Stage order
follows the script: queues (line 94), axis bounds (line 105, the first
point that touches min/max and therefore the point that raises on an
empty record list), y ticks (line 107), event names (line 110), colors
(line 115), legend handles (lines 119-127 and 145), rectangles (lines
130-142). -/
def pipeline {α β : Type} [LinearOrder α] [LinearOrder β]
    (pdat : List (Record α β)) : Except PipelineError (ChartModel α β) :=
  let queues := npUnique (pdat.map Record.queue)
  let num_queues := queues.length
  match pdat with
  | [] => .error .minEmptySequence
  | p :: ps =>
    let xmin := (ps.map Record.t_start).foldl min p.t_start
    let xmax := (ps.map Record.t_end).foldl max p.t_end
    let yticks := (List.range num_queues).zip queues
    let uniq_evts := npUnique ((p :: ps).map Record.event)
    let num_uniq_evts := uniq_evts.length
    let colors := uniq_colors num_uniq_evts
    let legend := uniq_evts.map
      (fun e => (e, cmapIdx (colors.getD (uniq_evts.indexOf e) 0)))
    let rects := (p :: ps).map (fun ev =>
      { x := ev.t_start
        y := ((queues.indexOf ev.queue : ℕ) : ℚ) - 0.4
        width := ev.t_end - ev.t_start
        height := 0.8
        facecolor := cmapIdx (colors.getD (uniq_evts.indexOf ev.event) 0) })
    .ok { xmin := xmin, xmax := xmax, ymin := -0.5,
          ymax := (num_queues : ℚ) - 0.5,
          yticks := yticks, legend := legend, rects := rects }

/-- Modelled from the spec (section 4.2): the Domain Resolver guard the
specification prescribes, failing with EmptyInputError on an empty
record sequence before producing the two domains.  The script itself
contains no such guard; this definition exists to compare the
prescription with the code. -/
def specDomainResolver {α β : Type} [LinearOrder α] [LinearOrder β]
    (records : List (Record α β)) : Except PipelineError (List α × List β) :=
  if records = [] then .error .emptyInputError
  else .ok (npUnique (records.map Record.queue), npUnique (records.map Record.event))

/-- Modelled from the spec (section 3, ColorMap invariant): the
collision policy the specification prescribes once the palette is
exhausted — deterministic collision via modulo, i.e. the label index
wraps around the palette size. -/
def specModuloIdx (i : ℕ) : ℕ :=
  i % cmapN

end CclPlotEvents

namespace PlotEventsPy

open CclPlotEvents

/-- Source line 57 of plot_events.py (same text as line 115 of
ccl_plot_events.py): uniq_colors = [x*cmap.N/num_uniq_evts for x in
range(num_uniq_evts)], with Python 2 floor division. -/
def uniq_colors (num_uniq_evts : ℕ) : List ℕ :=
  (List.range num_uniq_evts).map (fun x => x * cmapN / num_uniq_evts)

/-- The data-to-geometry pipeline of plot_events.py, source lines
33-93: queues (line 36), axis bounds (line 47), y ticks (line 49),
event names (line 52), colors (line 57), legend handles (lines 61-69
and 86), rectangles (lines 72-83).  The numpy and matplotlib
collaborators are the same libraries, so their models (npUnique,
cmapN, cmapIdx) are shared with the other script. -/
def pipeline {α β : Type} [LinearOrder α] [LinearOrder β]
    (pdat : List (Record α β)) : Except PipelineError (ChartModel α β) :=
  let queues := npUnique (pdat.map Record.queue)
  let num_queues := queues.length
  match pdat with
  | [] => .error .minEmptySequence
  | p :: ps =>
    let xmin := (ps.map Record.t_start).foldl min p.t_start
    let xmax := (ps.map Record.t_end).foldl max p.t_end
    let yticks := (List.range num_queues).zip queues
    let uniq_evts := npUnique ((p :: ps).map Record.event)
    let num_uniq_evts := uniq_evts.length
    let colors := uniq_colors num_uniq_evts
    let legend := uniq_evts.map
      (fun e => (e, cmapIdx (colors.getD (uniq_evts.indexOf e) 0)))
    let rects := (p :: ps).map (fun ev =>
      { x := ev.t_start
        y := ((queues.indexOf ev.queue : ℕ) : ℚ) - 0.4
        width := ev.t_end - ev.t_start
        height := 0.8
        facecolor := cmapIdx (colors.getD (uniq_evts.indexOf ev.event) 0) })
    .ok { xmin := xmin, xmax := xmax, ymin := -0.5,
          ymax := (num_queues : ℚ) - 0.5,
          yticks := yticks, legend := legend, rects := rects }

end PlotEventsPy

namespace CclPlotEvents

/-! Model of the parsing stage, numpy.genfromtxt at source line 91 of
ccl_plot_events.py (line 33 of plot_events.py), called with
delimiter set to tab, dtype=None, four field names, and the default
comment character.  A raw input is the list of the lines of the file.
For each line, genfromtxt first discards everything from the first
comment character on, strips surrounding blanks, silently skips the
line when nothing remains, and otherwise splits it at tab characters
into its fields.  It then checks that every surviving line has exactly
four fields, raising ValueError listing every offending 1-based
physical line number and its field count otherwise; finally, because
dtype=None asks for automatic type detection, each column is inferred
as a numeric column when every entry of the column parses as a number
and as a byte-string column otherwise. -/

/-- The blank characters numpy strips around a line once comments are
removed: space, carriage return, line feed. -/
def wsChar (c : Char) : Bool :=
  c = ' ' ∨ c = '\r' ∨ c = '\n'

/-- Model of the numpy line splitter: drop everything from the first
comment character on, strip surrounding blanks, and split the rest at
tab characters; a line that is blank after comment removal yields no
fields at all (and is then skipped by genfromtxt). -/
def splitLine (line : String) : List String :=
  let noComment := line.toList.takeWhile (fun c => c ≠ '#')
  let stripped := ((noComment.dropWhile wsChar).reverse.dropWhile wsChar).reverse
  if stripped = [] then []
  else (stripped.splitOn '\t').map (fun f => String.mk f)

/-- Value of a list of decimal digit characters. -/
def digitsVal (l : List Char) : ℕ :=
  l.foldl (fun acc c => 10 * acc + (c.toNat - 48)) 0

/-- Unsigned numeric literal: digits with an optional decimal point.
Models the integer and decimal forms accepted by the numpy type
detector; exotic forms (exponents, inf, nan, booleans, complex) are
omitted, no input considered here uses them. -/
def parseUnsigned (l : List Char) : Option ℚ :=
  match l.splitOn '.' with
  | [ds] =>
    if ds ≠ [] ∧ ds.all Char.isDigit then some (digitsVal ds : ℚ) else none
  | [ds, fs] =>
    if (ds ≠ [] ∨ fs ≠ []) ∧ ds.all Char.isDigit ∧ fs.all Char.isDigit then
      some ((digitsVal ds : ℚ) + (digitsVal fs : ℚ) / (10 : ℚ) ^ fs.length)
    else none
  | _ => none

/-- Numeric parse of one field, optional sign then unsigned literal. -/
def parseNum (s : String) : Option ℚ :=
  match s.toList with
  | [] => none
  | c :: cs =>
    if c = '-' then (parseUnsigned cs).map (fun q => -q)
    else if c = '+' then parseUnsigned cs
    else parseUnsigned (c :: cs)

/-- One column of the structured array returned by genfromtxt: either
inferred numeric or kept as byte strings. -/
inductive NpColumn where
  | num (vals : List ℚ)
  | str (vals : List String)
deriving DecidableEq, Repr

/-- Column type detection of genfromtxt with dtype=None: numeric when
every entry parses as a number, byte strings otherwise. -/
def inferColumn (fields : List String) : NpColumn :=
  if fields.all (fun s => (parseNum s).isSome) then
    .num (fields.map (fun s => (parseNum s).getD 0))
  else
    .str fields

/-- The structured array pdat as returned by genfromtxt: one column per
declared field name. -/
structure PTable where
  queue : NpColumn
  t_start : NpColumn
  t_end : NpColumn
  event : NpColumn
deriving DecidableEq, Repr

/-- The ValueError numpy.genfromtxt raises when lines do not have the
declared number of columns; it carries every offending line as a pair
of 1-based line number and the field count found there. -/
inductive GenfromtxtError where
  | wrongColumnCounts (badLines : List (ℕ × ℕ))
deriving DecidableEq, Repr

/-- Model of numpy.genfromtxt on the raw lines of the input file:
lines are split by splitLine, blank or comment-only lines (no fields)
are skipped while still advancing the physical 1-based line counter
used in error messages, surviving lines must have exactly four fields,
and the columns of the surviving rows are type-inferred. -/
def genfromtxt (lines : List String) : Except GenfromtxtError PTable :=
  let rows := (lines.enum.map (fun p => (p.1 + 1, splitLine p.2))).filter
    (fun p => p.2.length ≠ 0)
  let bad := (rows.filter (fun p => p.2.length ≠ 4)).map
    (fun p => (p.1, p.2.length))
  if bad ≠ [] then .error (.wrongColumnCounts bad)
  else .ok
    { queue := inferColumn (rows.map (fun p => p.2.getD 0 ("")))
      t_start := inferColumn (rows.map (fun p => p.2.getD 1 ("")))
      t_end := inferColumn (rows.map (fun p => p.2.getD 2 ("")))
      event := inferColumn (rows.map (fun p => p.2.getD 3 (""))) }

/-- The three records of the specification example. -/
def exPdat : List (Record Char Char) :=
  [ { queue := 'A', t_start := 0, t_end := 5, event := 'k' }
  , { queue := 'A', t_start := 5, t_end := 6, event := 'w' }
  , { queue := 'B', t_start := 0, t_end := 3, event := 'r' } ]

/-- The chart model the pipeline produces on the example records. -/
def exChart : ChartModel Char Char :=
  ((pipeline exPdat).toOption).getD default

/-- An input file with a blank line and a comment-only line between two
well-formed records. -/
def exSkipLines : List String :=
  [ "A\t0\t5\tkernel"
  , ""
  , "#comment line"
  , "B\t0\t3\tread" ]

end CclPlotEvents

namespace CclPlotEvents

theorem mem_insertUnique {α : Type} [LinearOrder α] (a b : α) (l : List α) :
    b ∈ insertUnique a l ↔ b = a ∨ b ∈ l := by
  induction l with
  | nil => simp [insertUnique]
  | cons c l ih =>
    by_cases h1 : a < c
    · simp only [insertUnique, if_pos h1, List.mem_cons]
    · by_cases h2 : a = c
      · subst h2
        rw [insertUnique, if_neg h1, if_pos rfl]
        simp only [List.mem_cons]
        tauto
      · simp only [insertUnique, if_neg h1, if_neg h2, List.mem_cons, ih]
        tauto

theorem insertUnique_sorted {α : Type} [LinearOrder α] (a : α) (l : List α)
    (hl : l.Sorted (· < ·)) : (insertUnique a l).Sorted (· < ·) := by
  induction l with
  | nil => simp [insertUnique]
  | cons c l ih =>
    rw [List.sorted_cons] at hl
    by_cases h1 : a < c
    · rw [insertUnique, if_pos h1, List.sorted_cons]
      refine ⟨?_, List.sorted_cons.mpr hl⟩
      intro b hb
      rcases List.mem_cons.mp hb with hb | hb
      · exact hb ▸ h1
      · exact h1.trans (hl.1 b hb)
    · by_cases h2 : a = c
      · rw [insertUnique, if_neg h1, if_pos h2]
        exact List.sorted_cons.mpr hl
      · rw [insertUnique, if_neg h1, if_neg h2, List.sorted_cons]
        refine ⟨?_, ih hl.2⟩
        intro b hb
        rcases (mem_insertUnique a b l).mp hb with hb | hb
        · exact hb ▸ lt_of_le_of_ne (le_of_not_lt h1) (Ne.symm h2)
        · exact hl.1 b hb

theorem npUnique_sorted {α : Type} [LinearOrder α] (l : List α) :
    (npUnique l).Sorted (· < ·) := by
  induction l with
  | nil => simp [npUnique]
  | cons a l ih => exact insertUnique_sorted a _ ih

theorem mem_npUnique {α : Type} [LinearOrder α] (a : α) (l : List α) :
    a ∈ npUnique l ↔ a ∈ l := by
  induction l with
  | nil => simp [npUnique]
  | cons b l ih =>
    show a ∈ insertUnique b (npUnique l) ↔ _
    rw [mem_insertUnique, ih, List.mem_cons]

theorem npUnique_nodup {α : Type} [LinearOrder α] (l : List α) :
    (npUnique l).Nodup :=
  (npUnique_sorted l).nodup

theorem npUnique_eq_of_sorted {α : Type} [LinearOrder α] (l m : List α)
    (hs : m.Sorted (· < ·)) (hm : ∀ a, a ∈ m ↔ a ∈ l) : m = npUnique l := by
  refine List.eq_of_perm_of_sorted ?_ hs.le_of_lt (npUnique_sorted l).le_of_lt
  refine (List.perm_ext_iff_of_nodup hs.nodup (npUnique_nodup l)).mpr ?_
  intro a
  rw [hm a, mem_npUnique]

theorem foldl_min_le_init {α : Type} [LinearOrder α] (x : α) (l : List α) :
    l.foldl min x ≤ x := by
  induction l generalizing x with
  | nil => exact le_refl x
  | cons b l ih => exact le_trans (ih (min x b)) (min_le_left x b)

theorem foldl_min_le_mem {α : Type} [LinearOrder α] (a : α) (l : List α)
    (h : a ∈ l) : ∀ x, l.foldl min x ≤ a := by
  induction l with
  | nil => cases h
  | cons b l ih =>
    intro x
    rcases List.mem_cons.mp h with h1 | h1
    · subst h1
      exact le_trans (foldl_min_le_init (min x a) l) (min_le_right x a)
    · exact ih h1 (min x b)

theorem foldl_min_mem {α : Type} [LinearOrder α] (x : α) (l : List α) :
    l.foldl min x = x ∨ l.foldl min x ∈ l := by
  induction l generalizing x with
  | nil => exact Or.inl rfl
  | cons b l ih =>
    rcases ih (min x b) with h | h
    · rcases min_choice x b with hm | hm
      · exact Or.inl (h.trans hm)
      · exact Or.inr (List.mem_cons.mpr (Or.inl (h.trans hm)))
    · exact Or.inr (List.mem_cons.mpr (Or.inr h))

theorem le_foldl_max_init {α : Type} [LinearOrder α] (x : α) (l : List α) :
    x ≤ l.foldl max x := by
  induction l generalizing x with
  | nil => exact le_refl x
  | cons b l ih => exact le_trans (le_max_left x b) (ih (max x b))

theorem mem_le_foldl_max {α : Type} [LinearOrder α] (a : α) (l : List α)
    (h : a ∈ l) : ∀ x, a ≤ l.foldl max x := by
  induction l with
  | nil => cases h
  | cons b l ih =>
    intro x
    rcases List.mem_cons.mp h with h1 | h1
    · subst h1
      exact le_trans (le_max_right x a) (le_foldl_max_init (max x a) l)
    · exact ih h1 (max x b)

theorem foldl_max_mem {α : Type} [LinearOrder α] (x : α) (l : List α) :
    l.foldl max x = x ∨ l.foldl max x ∈ l := by
  induction l generalizing x with
  | nil => exact Or.inl rfl
  | cons b l ih =>
    rcases ih (max x b) with h | h
    · rcases max_choice x b with hm | hm
      · exact Or.inl (h.trans hm)
      · exact Or.inr (List.mem_cons.mpr (Or.inl (h.trans hm)))
    · exact Or.inr (List.mem_cons.mpr (Or.inr h))

theorem uniq_colors_length (n : ℕ) : (uniq_colors n).length = n := by
  simp [uniq_colors]

theorem uniq_colors_getD (n i : ℕ) (hi : i < n) :
    (uniq_colors n).getD i 0 = i * cmapN / n := by
  unfold uniq_colors
  rw [List.getD_eq_getElem _ _ (by simpa using hi)]
  simp

theorem cmapN_pos : 0 < cmapN := by
  norm_num [cmapN]

theorem uniq_colors_val_lt (n i : ℕ) (hi : i < n) : i * cmapN / n < cmapN := by
  have hn0 : 0 < n := Nat.lt_of_le_of_lt (Nat.zero_le i) hi
  rw [Nat.div_lt_iff_lt_mul hn0]
  calc i * cmapN < n * cmapN := (Nat.mul_lt_mul_right cmapN_pos).mpr hi
  _ = cmapN * n := Nat.mul_comm n cmapN

theorem uniq_colors_strictMono (n : ℕ) (hn : n ≤ cmapN) (i j : ℕ)
    (hij : i < j) (hj : j < n) : i * cmapN / n < j * cmapN / n := by
  have hn0 : 0 < n := Nat.lt_of_le_of_lt (Nat.zero_le j) hj
  have h1 : (i * cmapN / n) * n ≤ i * cmapN := Nat.div_mul_le_self _ n
  have h2 : (i * cmapN / n + 1) * n ≤ j * cmapN := by
    have hstep : i * cmapN + cmapN ≤ j * cmapN := by
      have hij1 : i + 1 ≤ j := Nat.succ_le_of_lt hij
      calc i * cmapN + cmapN = (i + 1) * cmapN := by ring
      _ ≤ j * cmapN := Nat.mul_le_mul_right cmapN hij1
    calc (i * cmapN / n + 1) * n = (i * cmapN / n) * n + n := by ring
    _ ≤ i * cmapN + cmapN := Nat.add_le_add h1 hn
    _ ≤ j * cmapN := hstep
  have h3 := (Nat.le_div_iff_mul_le hn0).mpr h2
  omega

theorem cmapIdx_of_lt (x : ℕ) (h : x < cmapN) : cmapIdx x = x :=
  if_pos h

theorem uniq_colors_eq_floatSample (n i : ℕ) (hi : i < n) :
    i * cmapN / n = cmapFloatIdx ((i : ℚ) / (n : ℚ)) := by
  have hn0 : 0 < n := Nat.lt_of_le_of_lt (Nat.zero_le i) hi
  have hnq : ((n : ℚ)) ≠ 0 := by exact_mod_cast Nat.pos_iff_ne_zero.mp hn0
  have hcq : ((cmapN : ℚ)) ≠ 0 := by exact_mod_cast Nat.pos_iff_ne_zero.mp cmapN_pos
  rw [cmapFloatIdx, if_neg ?hne]
  case hne =>
    intro h
    rw [div_mul_eq_mul_div, div_eq_iff hnq] at h
    rw [mul_comm ((cmapN : ℚ)) ((n : ℚ))] at h
    have hin : (i : ℚ) = (n : ℚ) := mul_right_cancel₀ hcq h
    have : i = n := by exact_mod_cast hin
    omega
  have hcast : (i : ℚ) / (n : ℚ) * (cmapN : ℚ) = ((i * cmapN : ℕ) : ℚ) / ((n : ℕ) : ℚ) := by
    push_cast
    ring
  rw [hcast, Nat.floor_div_nat, Nat.floor_natCast]

theorem legend_getD_color {β : Type} [LinearOrder β] [Inhabited β]
    (evts : List β) (hnd : evts.Nodup) (colors : List ℕ) (i : ℕ)
    (hi : i < evts.length) :
    ((evts.map (fun e => (e, cmapIdx (colors.getD (evts.indexOf e) 0)))).getD
        i (default, 0)).2 = cmapIdx (colors.getD i 0) := by
  rw [List.getD_eq_getElem _ _ (by simpa using hi), List.getElem_map]
  simp [List.indexOf_getElem hnd]

theorem pipeline_cons {α β : Type} [LinearOrder α] [LinearOrder β]
    (p : Record α β) (ps : List (Record α β)) :
    pipeline (p :: ps) = .ok
      { xmin := (ps.map Record.t_start).foldl min p.t_start
        xmax := (ps.map Record.t_end).foldl max p.t_end
        ymin := -0.5
        ymax := ((npUnique ((p :: ps).map Record.queue)).length : ℚ) - 0.5
        yticks := (List.range (npUnique ((p :: ps).map Record.queue)).length).zip
          (npUnique ((p :: ps).map Record.queue))
        legend := (npUnique ((p :: ps).map Record.event)).map
          (fun e => (e, cmapIdx
            ((uniq_colors (npUnique ((p :: ps).map Record.event)).length).getD
              ((npUnique ((p :: ps).map Record.event)).indexOf e) 0)))
        rects := (p :: ps).map (fun ev =>
          { x := ev.t_start
            y := (((npUnique ((p :: ps).map Record.queue)).indexOf ev.queue : ℕ) : ℚ) - 0.4
            width := ev.t_end - ev.t_start
            height := 0.8
            facecolor := cmapIdx
              ((uniq_colors (npUnique ((p :: ps).map Record.event)).length).getD
                ((npUnique ((p :: ps).map Record.event)).indexOf ev.event) 0) }) } :=
  rfl

theorem pipeline_nil {α β : Type} [LinearOrder α] [LinearOrder β] :
    pipeline ([] : List (Record α β)) = .error .minEmptySequence :=
  rfl

/-- C1: for every parsed input record the pipeline produces exactly one
chart rectangle, in input order: the i-th rectangle has x equal to the
i-th record's start time, width equal to end minus start (zero width is
legal, no record is rejected), y equal to the record's queue row index
minus 0.4, and height 0.8. -/
theorem c1_layout_rectangles {α β : Type} [LinearOrder α] [LinearOrder β]
    (pdat : List (Record α β)) (c : ChartModel α β)
    (hc : pipeline pdat = .ok c) :
    c.rects.length = pdat.length ∧
    ∀ (i : ℕ) (h : i < pdat.length),
      (c.rects.getD i default).x = (pdat.get ⟨i, h⟩).t_start ∧
      (c.rects.getD i default).width =
        (pdat.get ⟨i, h⟩).t_end - (pdat.get ⟨i, h⟩).t_start ∧
      (c.rects.getD i default).y =
        (((npUnique (pdat.map Record.queue)).indexOf (pdat.get ⟨i, h⟩).queue : ℕ) : ℚ)
          - 0.4 ∧
      (c.rects.getD i default).height = 0.8 := by
  cases pdat with
  | nil =>
    rw [pipeline_nil] at hc
    cases hc
  | cons p ps =>
    rw [pipeline_cons] at hc
    injection hc with hch
    subst hch
    refine ⟨by simp, ?_⟩
    intro i h
    rw [List.getD_eq_getElem _ _ (by simpa using h), List.getElem_map]
    exact ⟨rfl, rfl, rfl, rfl⟩

/-- Witness for C1 at the three-record example input, instantiated at
its third record (queue B, interval 0 to 3). -/
theorem c1_witness :
    pipeline exPdat = .ok exChart ∧
    exChart.rects.length = exPdat.length ∧
    (exChart.rects.getD 2 default).x = 0 ∧
    (exChart.rects.getD 2 default).width = 3 ∧
    (exChart.rects.getD 2 default).y = 1 - 0.4 ∧
    (exChart.rects.getD 2 default).height = 0.8 := by
  have h := c1_layout_rectangles exPdat exChart rfl
  obtain ⟨hx, hw, hy, hh⟩ := h.2 2 (by decide)
  refine ⟨rfl, h.1, ?_, ?_, ?_, hh⟩
  · rw [hx]
    exact rfl
  · rw [hw]
    show (3 : ℚ) - 0 = 3
    norm_num
  · rw [hy]
    exact rfl

/-- C2: for every non-empty record sequence, the resolved queue and
event-type domains are the distinct input values, duplicate-free and
sorted strictly ascending in the natural order of the value type. -/
theorem c2_sorted_domains {α β : Type} [LinearOrder α] [LinearOrder β]
    (pdat : List (Record α β)) (_hne : pdat ≠ []) :
    ((npUnique (pdat.map Record.queue)).Sorted (· < ·) ∧
     (npUnique (pdat.map Record.queue)).Nodup ∧
     ∀ q : α, q ∈ npUnique (pdat.map Record.queue) ↔ q ∈ pdat.map Record.queue) ∧
    ((npUnique (pdat.map Record.event)).Sorted (· < ·) ∧
     (npUnique (pdat.map Record.event)).Nodup ∧
     ∀ e : β, e ∈ npUnique (pdat.map Record.event) ↔ e ∈ pdat.map Record.event) :=
  ⟨⟨npUnique_sorted _, npUnique_nodup _, fun q => mem_npUnique q _⟩,
   ⟨npUnique_sorted _, npUnique_nodup _, fun e => mem_npUnique e _⟩⟩

/-- Witness for C2 at the three-record example input, whose domains
evaluate to queues A, B and event names k, r, w in sorted order. -/
theorem c2_witness :
    exPdat ≠ [] ∧
    npUnique (exPdat.map Record.queue) = ['A', 'B'] ∧
    npUnique (exPdat.map Record.event) = ['k', 'r', 'w'] ∧
    (((npUnique (exPdat.map Record.queue)).Sorted (· < ·) ∧
      (npUnique (exPdat.map Record.queue)).Nodup ∧
      ∀ q : Char, q ∈ npUnique (exPdat.map Record.queue) ↔ q ∈ exPdat.map Record.queue) ∧
     ((npUnique (exPdat.map Record.event)).Sorted (· < ·) ∧
      (npUnique (exPdat.map Record.event)).Nodup ∧
      ∀ e : Char, e ∈ npUnique (exPdat.map Record.event) ↔ e ∈ exPdat.map Record.event)) :=
  ⟨by decide, by decide, by decide, c2_sorted_domains exPdat (by decide)⟩

/-- C3: the i-th distinct event name is assigned the palette sampled at
the equally spaced point i / N (N the number of distinct event names),
as a pure function of N and i: the Python 2 integer index i*256/N that
the code feeds to the colormap selects exactly the LUT entry that
sampling the colormap at the float i / N selects; the i-th legend entry
carries that color, and every rectangle whose record has the i-th event
name carries the same color as that legend entry. -/
theorem c3_color_assignment {α β : Type} [LinearOrder α] [LinearOrder β] [Inhabited β]
    (pdat : List (Record α β)) (c : ChartModel α β) (hc : pipeline pdat = .ok c)
    (i : ℕ) (hi : i < (npUnique (pdat.map Record.event)).length) :
    (uniq_colors (npUnique (pdat.map Record.event)).length).getD i 0 =
      cmapFloatIdx ((i : ℚ) / ((npUnique (pdat.map Record.event)).length : ℚ)) ∧
    (c.legend.getD i (default, 0)).2 =
      cmapIdx ((uniq_colors (npUnique (pdat.map Record.event)).length).getD i 0) ∧
    ∀ (j : ℕ) (hj : j < pdat.length),
      (pdat.get ⟨j, hj⟩).event = (npUnique (pdat.map Record.event)).get ⟨i, hi⟩ →
      (c.rects.getD j default).facecolor = (c.legend.getD i (default, 0)).2 := by
  cases pdat with
  | nil =>
    rw [pipeline_nil] at hc
    cases hc
  | cons p ps =>
    rw [pipeline_cons] at hc
    injection hc with hch
    subst hch
    refine ⟨?_, ?_, ?_⟩
    · rw [uniq_colors_getD _ _ hi]
      exact uniq_colors_eq_floatSample _ i hi
    · exact legend_getD_color _ (npUnique_nodup _) _ i hi
    · intro j hj hev
      rw [legend_getD_color _ (npUnique_nodup _) _ i hi]
      rw [List.getD_eq_getElem _ _ (by simpa using hj), List.getElem_map]
      have hidx : (npUnique ((p :: ps).map Record.event)).indexOf
          ((p :: ps).get ⟨j, hj⟩).event = i := by
        rw [hev]
        simp only [List.get_eq_getElem, Fin.val_mk]
        exact List.indexOf_getElem (npUnique_nodup _) i hi
      simp only [List.get_eq_getElem, Fin.val_mk] at hidx
      rw [hidx]

/-- Witness for C3 at the three-record example input and its second
distinct event name (index 1 of three). -/
theorem c3_witness :
    pipeline exPdat = .ok exChart ∧
    1 < (npUnique (exPdat.map Record.event)).length ∧
    ((uniq_colors (npUnique (exPdat.map Record.event)).length).getD 1 0 =
       cmapFloatIdx ((1 : ℚ) / ((npUnique (exPdat.map Record.event)).length : ℚ)) ∧
     (exChart.legend.getD 1 (default, 0)).2 =
       cmapIdx ((uniq_colors (npUnique (exPdat.map Record.event)).length).getD 1 0) ∧
     ∀ (j : ℕ) (hj : j < exPdat.length),
       (exPdat.get ⟨j, hj⟩).event =
         (npUnique (exPdat.map Record.event)).get ⟨1, by decide⟩ →
       (exChart.rects.getD j default).facecolor =
         (exChart.legend.getD 1 (default, 0)).2) := by
  exact ⟨rfl, by decide, c3_color_assignment exPdat exChart rfl 1 (by decide)⟩

/-- C4 (amended): every distinct event name receives exactly one color,
computed by the deterministic floor-scaling policy i*256/N; whenever N
does not exceed the number of distinguishable palette entries (256, the
LUT size), any two distinct event names receive distinct colors, for
any injective reading of the palette LUT. -/
theorem c4_colormap_injective {γ : Type} (palette : ℕ → γ)
    (hpal : ∀ a, a < cmapN → ∀ b, b < cmapN → palette a = palette b → a = b)
    (n : ℕ) (hn : n ≤ cmapN) :
    (uniq_colors n).length = n ∧
    (∀ i, i < n → (uniq_colors n).getD i 0 = i * cmapN / n) ∧
    ∀ i, i < n → ∀ j, j < n → i ≠ j →
      palette (cmapIdx ((uniq_colors n).getD i 0)) ≠
        palette (cmapIdx ((uniq_colors n).getD j 0)) := by
  have key : ∀ i j : ℕ, i < j → j < n →
      palette (cmapIdx ((uniq_colors n).getD i 0)) ≠
        palette (cmapIdx ((uniq_colors n).getD j 0)) := by
    intro i j hij hj hEq
    have hi : i < n := lt_trans hij hj
    rw [uniq_colors_getD n i hi, uniq_colors_getD n j hj,
        cmapIdx_of_lt _ (uniq_colors_val_lt n i hi),
        cmapIdx_of_lt _ (uniq_colors_val_lt n j hj)] at hEq
    have heq2 := hpal _ (uniq_colors_val_lt n i hi) _ (uniq_colors_val_lt n j hj) hEq
    exact absurd heq2 (Nat.ne_of_lt (uniq_colors_strictMono n hn i j hij hj))
  refine ⟨uniq_colors_length n, fun i hi => uniq_colors_getD n i hi, ?_⟩
  intro i hi j hj hij
  rcases Nat.lt_or_ge i j with h | h
  · exact key i j h hj
  · have h2 : j < i := lt_of_le_of_ne h (Ne.symm hij)
    exact fun hEq => key j i h2 hi hEq.symm

/-- Witness for C4 at a domain of three event names, with the palette
read as the LUT index itself. -/
theorem c4_witness :
    (∀ a, a < cmapN → ∀ b, b < cmapN → (id a : ℕ) = id b → a = b) ∧
    3 ≤ cmapN ∧
    ((uniq_colors 3).length = 3 ∧
     (∀ i, i < 3 → (uniq_colors 3).getD i 0 = i * cmapN / 3) ∧
     ∀ i, i < 3 → ∀ j, j < 3 → i ≠ j →
       (id (cmapIdx ((uniq_colors 3).getD i 0)) : ℕ) ≠
         id (cmapIdx ((uniq_colors 3).getD j 0))) :=
  ⟨fun a _ b _ h => h, by norm_num [cmapN],
   c4_colormap_injective id (fun a _ b _ h => h) 3 (by norm_num [cmapN])⟩

/-- C4 counterexample: the code's collision policy once the palette is
exhausted is floor scaling, not modulo.  With 257 distinct event names
the code gives labels 0 and 1 the same LUT index (both map to 0), while
the modulo policy of the specification keeps them distinct. -/
theorem c4_counterexample :
    cmapIdx ((uniq_colors 257).getD 0 0) = cmapIdx ((uniq_colors 257).getD 1 0) ∧
    specModuloIdx 0 ≠ specModuloIdx 1 := by
  constructor
  · decide
  · decide

/-- C5 counterexample: on an empty parsed record sequence the pipeline
does not fail with the EmptyInputError guard the specification places
in the Domain Resolver — the queue domain resolves to the empty list
without error, and the failure is the ValueError of the builtin min on
an empty sequence, raised while computing the X axis bounds. -/
theorem c5_counterexample :
    pipeline ([] : List (Record ℕ ℕ)) = .error .minEmptySequence ∧
    pipeline ([] : List (Record ℕ ℕ)) ≠ .error .emptyInputError ∧
    specDomainResolver ([] : List (Record ℕ ℕ)) = .error .emptyInputError ∧
    npUnique (([] : List (Record ℕ ℕ)).map Record.queue) = [] := by
  refine ⟨rfl, ?_, rfl, rfl⟩
  intro h
  rw [pipeline_nil] at h
  injection h with h2
  cases h2

/-- C5 (amended): on an empty parsed record sequence the pipeline does
fail before a chart model is produced, but at the axis-bounds stage
(min over the empty start-time column), after the domain resolution has
already produced empty domains without any guard. -/
theorem c5_empty_fails_at_axis_bounds :
    npUnique (([] : List (Record ℕ ℕ)).map Record.queue) = [] ∧
    npUnique (([] : List (Record ℕ ℕ)).map Record.event) = [] ∧
    pipeline ([] : List (Record ℕ ℕ)) = .error .minEmptySequence :=
  ⟨rfl, rfl, rfl⟩

/-- Blank lines and comment-only lines are silently skipped by the
parser: the four-line input with a blank line and a comment line
parses exactly like its two record lines alone. -/
theorem genfromtxt_skips_blank_and_comment :
    splitLine ("") = [] ∧
    splitLine ("#comment line") = [] ∧
    (genfromtxt exSkipLines).isOk = true ∧
    genfromtxt exSkipLines = genfromtxt [("A\t0\t5\tkernel"), ("B\t0\t3\tread")] :=
  ⟨rfl, rfl, rfl, rfl⟩

/-- C7: the chart model has X bounds from the least start time to the
greatest end time, Y bounds from -0.5 to the number of queues minus
0.5, one Y tick per queue pairing row indices 0, 1, ... with the
resolved queues in order, and a legend pairing the resolved event names
with their assigned colors in order. -/
theorem c7_chart_assembly {α β : Type} [LinearOrder α] [LinearOrder β] [Inhabited β]
    (pdat : List (Record α β)) (c : ChartModel α β) (hc : pipeline pdat = .ok c) :
    (∀ r ∈ pdat, c.xmin ≤ r.t_start) ∧
    c.xmin ∈ pdat.map Record.t_start ∧
    (∀ r ∈ pdat, r.t_end ≤ c.xmax) ∧
    c.xmax ∈ pdat.map Record.t_end ∧
    c.ymin = -0.5 ∧
    c.ymax = ((npUnique (pdat.map Record.queue)).length : ℚ) - 0.5 ∧
    c.yticks = (List.range (npUnique (pdat.map Record.queue)).length).zip
      (npUnique (pdat.map Record.queue)) ∧
    c.legend.map Prod.fst = npUnique (pdat.map Record.event) ∧
    ∀ i, i < (npUnique (pdat.map Record.event)).length →
      (c.legend.getD i (default, 0)).2 =
        cmapIdx ((uniq_colors (npUnique (pdat.map Record.event)).length).getD i 0) := by
  cases pdat with
  | nil =>
    rw [pipeline_nil] at hc
    cases hc
  | cons p ps =>
    rw [pipeline_cons] at hc
    injection hc with hch
    subst hch
    refine ⟨?_, ?_, ?_, ?_, rfl, rfl, rfl, ?_, ?_⟩
    · intro r hr
      rcases List.mem_cons.mp hr with h | h
      · rw [h]
        exact foldl_min_le_init _ _
      · exact foldl_min_le_mem _ _ (List.mem_map_of_mem _ h) _
    · rcases foldl_min_mem p.t_start (ps.map Record.t_start) with h | h
      · rw [List.map_cons, h]
        exact List.mem_cons_self _ _
      · rw [List.map_cons]
        exact List.mem_cons_of_mem _ h
    · intro r hr
      rcases List.mem_cons.mp hr with h | h
      · rw [h]
        exact le_foldl_max_init _ _
      · exact mem_le_foldl_max _ _ (List.mem_map_of_mem _ h) _
    · rcases foldl_max_mem p.t_end (ps.map Record.t_end) with h | h
      · rw [List.map_cons, h]
        exact List.mem_cons_self _ _
      · rw [List.map_cons]
        exact List.mem_cons_of_mem _ h
    · rw [List.map_map]
      exact List.map_id _
    · intro i hi
      exact legend_getD_color _ (npUnique_nodup _) _ i hi

/-- Witness for C7 at the three-record example input. -/
theorem c7_witness :
    pipeline exPdat = .ok exChart ∧
    ((∀ r ∈ exPdat, exChart.xmin ≤ r.t_start) ∧
     exChart.xmin ∈ exPdat.map Record.t_start ∧
     (∀ r ∈ exPdat, r.t_end ≤ exChart.xmax) ∧
     exChart.xmax ∈ exPdat.map Record.t_end ∧
     exChart.ymin = -0.5 ∧
     exChart.ymax = ((npUnique (exPdat.map Record.queue)).length : ℚ) - 0.5 ∧
     exChart.yticks = (List.range (npUnique (exPdat.map Record.queue)).length).zip
       (npUnique (exPdat.map Record.queue)) ∧
     exChart.legend.map Prod.fst = npUnique (exPdat.map Record.event) ∧
     ∀ i, i < (npUnique (exPdat.map Record.event)).length →
       (exChart.legend.getD i (default, 0)).2 =
         cmapIdx ((uniq_colors (npUnique (exPdat.map Record.event)).length).getD i 0)) := by
  exact ⟨rfl, c7_chart_assembly exPdat exChart rfl⟩

/-- C8: the pipeline is a pure function of the parsed records — two
runs on the same input yield the same tick list, the same legend, the
same rectangle list, and indeed the same whole chart model. -/
theorem c8_deterministic {α β : Type} [LinearOrder α] [LinearOrder β]
    (pdat : List (Record α β)) (c1 c2 : ChartModel α β)
    (h1 : pipeline pdat = .ok c1) (h2 : pipeline pdat = .ok c2) :
    c1.yticks = c2.yticks ∧ c1.legend = c2.legend ∧
    c1.rects = c2.rects ∧ c1 = c2 := by
  have h := h1.symm.trans h2
  injection h with h
  subst h
  exact ⟨rfl, rfl, rfl, rfl⟩

/-- Witness for C8 at the three-record example input. -/
theorem c8_witness :
    pipeline exPdat = .ok exChart ∧
    (exChart.yticks = exChart.yticks ∧ exChart.legend = exChart.legend ∧
     exChart.rects = exChart.rects ∧ exChart = exChart) :=
  ⟨rfl, c8_deterministic exPdat exChart exChart rfl rfl⟩

/-- C9: when every record's queue occurs in the resolved queue domain
(always the case for a domain resolved from the same records), every
produced rectangle lies strictly inside the Y axis bounds and within
the X axis bounds of the chart. -/
theorem c9_rects_within_bounds {α β : Type} [LinearOrder α] [LinearOrder β]
    (pdat : List (Record α β)) (c : ChartModel α β)
    (hc : pipeline pdat = .ok c)
    (hq : ∀ r ∈ pdat, r.queue ∈ npUnique (pdat.map Record.queue)) :
    ∀ rect ∈ c.rects,
      c.xmin ≤ rect.x ∧ rect.x + rect.width ≤ c.xmax ∧
      c.ymin < rect.y ∧ rect.y + rect.height < c.ymax := by
  cases pdat with
  | nil =>
    rw [pipeline_nil] at hc
    cases hc
  | cons p ps =>
    rw [pipeline_cons] at hc
    injection hc with hch
    subst hch
    intro rect hrect
    rcases List.mem_map.mp hrect with ⟨ev, hev, rfl⟩
    refine ⟨?_, ?_, ?_, ?_⟩
    · rcases List.mem_cons.mp hev with h | h
      · rw [h]
        exact foldl_min_le_init _ _
      · exact foldl_min_le_mem _ _ (List.mem_map_of_mem _ h) _
    · have hle : ev.t_end ≤ (ps.map Record.t_end).foldl max p.t_end := by
        rcases List.mem_cons.mp hev with h | h
        · rw [h]
          exact le_foldl_max_init _ _
        · exact mem_le_foldl_max _ _ (List.mem_map_of_mem _ h) _
      calc ev.t_start + (ev.t_end - ev.t_start) = ev.t_end := by ring
      _ ≤ _ := hle
    · have h0 : (0 : ℚ) ≤
          (((npUnique ((p :: ps).map Record.queue)).indexOf ev.queue : ℕ) : ℚ) :=
        Nat.cast_nonneg _
      linarith
    · have hlt : (npUnique ((p :: ps).map Record.queue)).indexOf ev.queue <
          (npUnique ((p :: ps).map Record.queue)).length :=
        List.indexOf_lt_length.mpr (hq ev hev)
      have hcast : (((npUnique ((p :: ps).map Record.queue)).indexOf ev.queue : ℕ) : ℚ) + 1 ≤
          ((npUnique ((p :: ps).map Record.queue)).length : ℚ) := by
        exact_mod_cast hlt
      linarith

/-- Witness for C9 at the three-record example input. -/
theorem c9_witness :
    pipeline exPdat = .ok exChart ∧
    (∀ r ∈ exPdat, r.queue ∈ npUnique (exPdat.map Record.queue)) ∧
    ∀ rect ∈ exChart.rects,
      exChart.xmin ≤ rect.x ∧ rect.x + rect.width ≤ exChart.xmax ∧
      exChart.ymin < rect.y ∧ rect.y + rect.height < exChart.ymax :=
  ⟨rfl, by decide, c9_rects_within_bounds exPdat exChart rfl (by decide)⟩

/-- C10: the two scripts compute identical chart models on every parsed
input — their data-to-geometry code is the same, line for line, so the
embedded pipelines are definitionally equal functions. -/
theorem c10_scripts_equivalent {α β : Type} [LinearOrder α] [LinearOrder β]
    (pdat : List (Record α β)) :
    pipeline pdat = PlotEventsPy.pipeline pdat :=
  rfl

end CclPlotEvents
